import Mathlib

/-!
Verification development for the pydis bytecode tools.

The definitions below are a shallow embedding of the two source files
`src/pydis/marshal/load.py` and `src/pydis/disassemble.py`.  Byte streams are
modelled as `List Nat` (each element a byte value), the file-pointer style
readers of `_Unmarshal` become functions from a stream to
`Except String (value × remaining stream)`, and the Python exceptions that the
source can raise (NameError, TypeError, IndexError, end of stream) become
`Except.error` values.  Machine integers are modelled as `Int`/`Nat` with the
exact masking and sign adjustments written in the source.
-/

set_option maxRecDepth 40000

namespace Pydis

/-- Marshal values, as far as the claims need them: the constant pool of a code
object may hold arbitrary deserialized values; we model the universe of such
values by `PyVal` (the none singleton, integers, strings). -/
inductive PyVal where
  | none : PyVal
  | int (n : Int) : PyVal
  | str (s : String) : PyVal
deriving DecidableEq

/-- Textual form of a value, mirroring the Python `repr` used by the
annotators in `disassemble.py` for the value shapes of `PyVal`. -/
def pyRepr : PyVal → String
  | PyVal.none => "None"
  | PyVal.int n => toString n
  | PyVal.str s => "\x27" ++ s ++ "\x27"

/-- Embedding of `_Unmarshal.r_short` (src/pydis/marshal/load.py lines 64-68):
two bytes little endian, sign extended from 16 bits. -/
def r_short (s : List Nat) : Except String (Int × List Nat) :=
  match s with
  | b0 :: b1 :: rest =>
      let x : Nat := b0 ||| (b1 <<< 8)
      let r : Int := if x &&& 0x8000 ≠ 0 then (x : Int) - 0x10000 else (x : Int)
      Except.ok (r, rest)
  | _ => Except.error "EndOfStream"

/-- Embedding of `_Unmarshal.read_long` (src/pydis/marshal/load.py lines
70-81): four bytes little endian; if the top bit of the last byte is set and
the unsigned value is positive, the result is reinterpreted as
`-((1 <<< 32) - x)`. -/
def read_long (s : List Nat) : Except String (Int × List Nat) :=
  match s with
  | a :: b :: c :: d :: rest =>
      let x : Nat := a ||| (b <<< 8) ||| (c <<< 16) ||| (d <<< 24)
      let r : Int :=
        if d &&& 0x80 ≠ 0 ∧ 0 < (x : Int) then -((1 <<< 32 : Int) - (x : Int)) else (x : Int)
      Except.ok (r, rest)
  | _ => Except.error "EndOfStream"

/-- Embedding of `_Unmarshal.load_int64` (src/pydis/marshal/load.py lines
88-106) exactly as written: the source binds `b0 .. b7` to the raw length-one
`bytes` objects returned by `self._read(1)` and never converts them with
`ord`, so the very first combining expression `b0 | b1 << 8 | ...` raises a
`TypeError` on every call, before any value is produced. -/
def load_int64 (_s : List Nat) : Except String (Int × List Nat) :=
  Except.error "TypeError: unsupported operand types for int shift on bytes"

/-- The value-level repair of `load_int64`: the same eight little-endian bytes
combined as integers (as the explicit `ord` calls of `r_short` and `read_long`
do), with the two\x27s-complement reinterpretation the source writes under the
`b7 & 0x80 and ret_val > 0` guard. -/
def load_int64_ord (s : List Nat) : Except String (Int × List Nat) :=
  match s with
  | b0 :: b1 :: b2 :: b3 :: b4 :: b5 :: b6 :: b7 :: rest =>
      let x : Nat := b0 ||| (b1 <<< 8) ||| (b2 <<< 16) ||| (b3 <<< 24) |||
        (b4 <<< 32) ||| (b5 <<< 40) ||| (b6 <<< 48) ||| (b7 <<< 56)
      let r : Int :=
        if b7 &&& 0x80 ≠ 0 ∧ 0 < (x : Int) then -((1 <<< 64 : Int) - (x : Int)) else (x : Int)
      Except.ok (r, rest)
  | _ => Except.error "EndOfStream"

/-- Embedding of `_Unmarshal.load_long` (src/pydis/marshal/load.py lines
170-176) exactly as written: it reads the 32-bit digit count, computes
`sign = 1 if digit_size < 0 else -1`, and then evaluates the loop bound
`range(abc(digit_size))`.  The name `abc` is not defined in the module, in its
imports, or among the Python builtins, so this call raises a `NameError`
before any digit is read, for every digit count including zero. -/
def load_long (s : List Nat) : Except String (Int × List Nat) :=
  match read_long s with
  | Except.ok (digit_size, s1) =>
      let _sign : Int := if digit_size < 0 then 1 else -1
      let _s1 := s1
      Except.error "NameError: name abc is not defined"
  | Except.error e => Except.error e

/-- Digit-accumulation loop of `load_long`: for each `i` below the digit
count, read one `r_short` digit `d` and fold `x = x | (d << (i * 15))`,
exactly as the source loop body does. -/
def load_long_digits : Nat → Nat → Int → List Nat → Except String (Int × List Nat)
  | 0, _, x, s => Except.ok (x, s)
  | n + 1, i, x, s =>
      match r_short s with
      | Except.ok (d, s1) => load_long_digits n (i + 1) (Int.lor x (d <<< (i * 15 : Int))) s1
      | Except.error e => Except.error e

/-- Embedding of `_Unmarshal.load_long` with the single repair that §9 of the
spec records as the acknowledged typo: the loop bound `abc(digit_size)`
becomes `abs(digit_size)`.  Everything else is as in the source; in
particular the sign is still computed as `sign = 1 if digit_size < 0 else -1`
and the result is `x * sign`. -/
def load_long_abs (s : List Nat) : Except String (Int × List Nat) :=
  match read_long s with
  | Except.ok (digit_size, s1) =>
      let sign : Int := if digit_size < 0 then 1 else -1
      match load_long_digits digit_size.natAbs 0 0 s1 with
      | Except.ok (x, s2) => Except.ok (x * sign, s2)
      | Except.error e => Except.error e
  | Except.error e => Except.error e

/-- Modelled from the spec: `_Unmarshal.load_ref` in src/pydis/marshal/load.py
(lines 211-212) has an empty `pass` body, so the back-reference handler itself
is missing from the sources.  Following §4.3 and §7 of the spec, the handler
reads a reference-table index with the 4-byte integer reader and returns the
already-registered value at that index, failing with `DanglingReference`
whenever the index does not denote a registered entry (a negative index or an
index at or past the number of registered values). -/
def load_ref (refs : List PyVal) (s : List Nat) : Except String (PyVal × List Nat) :=
  match read_long s with
  | Except.ok (i, s1) =>
      if h : 0 ≤ i ∧ i.toNat < refs.length then
        Except.ok (refs.get ⟨i.toNat, h.2⟩, s1)
      else
        Except.error "DanglingReference"
  | Except.error e => Except.error e

/-- Byte stream of the worked example in the `load_long` source comment:
digit count 7, then the seven 15-bit digits
`[3426, 15327, 31619, 23110, 15594, 17366, 11]` as little-endian 16-bit
words. -/
def exampleLongPos : List Nat :=
  [7, 0, 0, 0, 98, 13, 223, 59, 131, 123, 70, 90, 234, 60, 214, 67, 11, 0]

/-- The same digit stream with the digit count negated (-7 as a little-endian
signed 32-bit value). -/
def exampleLongNeg : List Nat :=
  [249, 255, 255, 255, 98, 13, 223, 59, 131, 123, 70, 90, 234, 60, 214, 67, 11, 0]

/-! ### Disassembler data model (src/pydis/disassemble.py) -/

/-- Capability flags of one opcode, as the generated opcode classes expose
them through `has_arg`, `has_jrel`, `has_jabs`, `has_const`, `has_name`,
`has_local`, `has_free`, `has_cmp`, `is_extended_arg` and `is_make_function`.
The per-version opcode table itself is external data (spec §1), so the
embedding is parametric in a table `Nat → OpSpec`. -/
structure OpSpec where
  opname : String
  hasArg : Bool
  hasJrel : Bool
  hasJabs : Bool
  hasConst : Bool
  hasName : Bool
  hasLocal : Bool
  hasFree : Bool
  hasCmp : Bool
  isExtendedArg : Bool
  isMakeFunction : Bool
deriving DecidableEq

/-- The code-object attributes that `DecodeCode.__init__` reads: raw bytecode,
constants, names, varnames, cellvars and freevars, the first source line and
the raw line-delta table.  `co_consts`, `co_names` and `co_varnames` may be
absent (`None`), which the annotation helpers fall back on. -/
structure CodeObject where
  co_code : List Nat
  co_consts : Option (List PyVal)
  co_names : Option (List String)
  co_varnames : Option (List String)
  co_cellvars : List String
  co_freevars : List String
  co_firstlineno : Int
  co_lnotab : List Nat
deriving DecidableEq

/-- One fully annotated instruction, with the six fields the source passes to
the opcode-class constructor in `_wordcode`: offset, line start, raw argument,
resolved argument value, its representation, and the jump-target flag. -/
structure Instr where
  offset : Nat
  op : OpSpec
  line : Option Int
  arg : Option Nat
  argval : Option PyVal
  argrepr : String
  isJumpTarget : Bool
deriving DecidableEq

/-! ### Line table decoder (`line_no_table`, src/pydis/disassemble.py 105-140) -/

/-- Even-index slice `l[0::2]` of a byte list. -/
def everyOther : List Nat → List Nat
  | [] => []
  | [x] => [x]
  | x :: _ :: rest => x :: everyOther rest

/-- Loop of `line_no_table` over the zipped `(byte_incr, line_incr)` pairs,
carrying the running address, the last emitted line and the running line.
A pair emits `(addr, lineno)` only when `byte_incr` is nonzero and the running
line differs from the last emitted one; the line delta is sign-adjusted by 256
when it is at least 128; after the pairs, one final pair is emitted when the
running line differs from the last emitted one. -/
def lineNoTableGo : Nat → Option Int → Int → List (Nat × Nat) → List (Nat × Int)
  | addr, last, lineno, [] =>
      if last ≠ some lineno then [(addr, lineno)] else []
  | addr, last, lineno, (byte_incr, line_incr) :: rest =>
      let line_incr2 : Int :=
        if line_incr ≥ 0x80 then (line_incr : Int) - 0x100 else (line_incr : Int)
      if byte_incr ≠ 0 then
        if last ≠ some lineno then
          (addr, lineno) :: lineNoTableGo (addr + byte_incr) (some lineno) (lineno + line_incr2) rest
        else
          lineNoTableGo (addr + byte_incr) last (lineno + line_incr2) rest
      else
        lineNoTableGo addr last (lineno + line_incr2) rest

/-- Embedding of `line_no_table`: pair up `co_lnotab[0::2]` with
`co_lnotab[1::2]` and fold `lineNoTableGo` from address 0, no line emitted
yet, and the first line number of the code object. -/
def line_no_table (lnotab : List Nat) (firstlineno : Int) : List (Nat × Int) :=
  let byte_increments := everyOther lnotab
  let line_increments := everyOther (lnotab.drop 1)
  lineNoTableGo 0 Option.none firstlineno (byte_increments.zip line_increments)

/-! ### Instruction word decoder (`DecodeCode._unpack_wordcode`, lines 331-342) -/

/-- Loop of `_unpack_wordcode` over 2-byte words: at offset `i` look up the
opcode of `code[i]`; when it takes an argument, the argument is
`code[i + 1] | extended_arg` and the accumulator becomes `arg << 8` for an
extended-arg marker and `0` otherwise; when it takes no argument the word
yields no argument and the accumulator is left unchanged (the source only
assigns `extended_arg` inside the `has_arg` branch).  A trailing lone opcode
byte that takes an argument would read `code[i + 1]` out of range. -/
def unpackWordcodeGo (T : Nat → OpSpec) : Nat → Nat → List Nat →
    Except String (List (Nat × OpSpec × Option Nat))
  | _, _, [] => Except.ok []
  | i, _, [b0] =>
      let op := T b0
      if op.hasArg then Except.error "IndexError: bytecode index out of range"
      else Except.ok [(i, op, Option.none)]
  | i, ext, b0 :: b1 :: rest =>
      let op := T b0
      if op.hasArg then
        let arg := b1 ||| ext
        match unpackWordcodeGo T (i + 2) (if op.isExtendedArg then arg <<< 8 else 0) rest with
        | Except.ok tail => Except.ok ((i, op, some arg) :: tail)
        | Except.error e => Except.error e
      else
        match unpackWordcodeGo T (i + 2) ext rest with
        | Except.ok tail => Except.ok ((i, op, Option.none) :: tail)
        | Except.error e => Except.error e

/-- Embedding of `DecodeCode._unpack_wordcode`: the extended-arg accumulator
starts at 0 at the beginning of the stream of each code object. -/
def unpack_wordcode (T : Nat → OpSpec) (code : List Nat) :
    Except String (List (Nat × OpSpec × Option Nat)) :=
  unpackWordcodeGo T 0 0 code

/-! ### Jump target resolver (`DecodeCode.findlabels`, lines 313-329) -/

/-- Loop of `findlabels`: for every decoded word whose argument is truthy
(present and nonzero — the source writes `if arg:`), a relative jump
contributes `offset + 2 + arg` and an absolute jump contributes `arg`; a
target is appended only when not already collected. -/
def findlabelsGo (labels : List Nat) : List (Nat × OpSpec × Option Nat) → List Nat
  | [] => labels
  | (offset, op, arg) :: rest =>
      match arg with
      | some a =>
          if a = 0 then findlabelsGo labels rest
          else if op.hasJrel then
            let target := offset + 2 + a
            findlabelsGo (if target ∈ labels then labels else labels ++ [target]) rest
          else if op.hasJabs then
            let target := a
            findlabelsGo (if target ∈ labels then labels else labels ++ [target]) rest
          else findlabelsGo labels rest
      | Option.none => findlabelsGo labels rest

/-- Embedding of `DecodeCode.findlabels` applied to an already unpacked word
sequence. -/
def findlabels (unpacked : List (Nat × OpSpec × Option Nat)) : List Nat :=
  findlabelsGo [] unpacked

/-! ### Instruction annotator (`DecodeCode._wordcode` and helpers) -/

/-- Python list indexing: ok when the index is in range, `IndexError`
otherwise. -/
def getItem (l : List α) (i : Nat) : Except String α :=
  match l.get? i with
  | some v => Except.ok v
  | Option.none => Except.error "IndexError: index out of range"

/-- Embedding of `DecodeCode._get_const_info` (lines 241-251): dereference the
constants sequence when it is available, otherwise fall back to the raw index;
the representation is the `repr` of the resulting value in both cases. -/
def get_const_info (const_index : Nat) (constants : Option (List PyVal)) :
    Except String (PyVal × String) :=
  match constants with
  | some l =>
      match getItem l const_index with
      | Except.ok v => Except.ok (v, pyRepr v)
      | Except.error e => Except.error e
  | Option.none => Except.ok (PyVal.int const_index, pyRepr (PyVal.int const_index))

/-- Embedding of `DecodeCode._get_name_info` (lines 253-266): dereference the
name list when it is available (the representation is the bare name),
otherwise fall back to the raw index and its `repr`. -/
def get_name_info (name_index : Nat) (name_list : Option (List String)) :
    Except String (PyVal × String) :=
  match name_list with
  | some l =>
      match getItem l name_index with
      | Except.ok v => Except.ok (PyVal.str v, v)
      | Except.error e => Except.error e
  | Option.none => Except.ok (PyVal.int name_index, pyRepr (PyVal.int name_index))

/-- Representation of a make-function argument: the comma-separated names of
the flag bits set in `arg`, in table order (`MAKE_FUNCTION_FLAGS`). -/
def makeFunctionRepr (flags : List String) (arg : Nat) : String :=
  String.intercalate ", "
    ((flags.enum.filterMap fun p =>
      if arg &&& (1 <<< p.1) ≠ 0 then some p.2 else Option.none))

/-- Resolution of a raw argument into `(argval, argrepr)`, following the
`if arg:` block of the `_wordcode` loop (lines 284-301): when the argument is
truthy (present and nonzero) the capability flags are tried in the order
const, name, local, free, cmp, make-function; otherwise `argval` stays absent
and `argrepr` stays empty. -/
def resolveArg (co : CodeObject) (cmpTable mkFlags : List String) (op : OpSpec) :
    Option Nat → Except String (Option PyVal × String)
  | some a =>
      if a = 0 then Except.ok (Option.none, "")
      else if op.hasConst then
        match get_const_info a co.co_consts with
        | Except.ok (v, r) => Except.ok (some v, r)
        | Except.error e => Except.error e
      else if op.hasName then
        match get_name_info a co.co_names with
        | Except.ok (v, r) => Except.ok (some v, r)
        | Except.error e => Except.error e
      else if op.hasLocal then
        match get_name_info a co.co_varnames with
        | Except.ok (v, r) => Except.ok (some v, r)
        | Except.error e => Except.error e
      else if op.hasFree then
        match get_name_info a (some (co.co_cellvars ++ co.co_freevars)) with
        | Except.ok (v, r) => Except.ok (some v, r)
        | Except.error e => Except.error e
      else if op.hasCmp then
        match getItem cmpTable a with
        | Except.ok v => Except.ok (some (PyVal.str v), pyRepr (PyVal.str v))
        | Except.error e => Except.error e
      else if op.isMakeFunction then
        Except.ok (some (PyVal.int a), makeFunctionRepr mkFlags a)
      else
        Except.ok (some (PyVal.int a), "")
  | Option.none => Except.ok (Option.none, "")

/-- Annotation of one decoded word, following the body of the `_wordcode`
loop (lines 278-310): the line start comes from the line-table mapping, the
jump-target flag from the label set, the value and representation from
`resolveArg`, and the instruction record is built once from these six
fields exactly as the source constructor call does. -/
def annotateWord (co : CodeObject) (cmpTable mkFlags : List String)
    (labels : List Nat) (linestarts : List (Nat × Int)) :
    Nat × OpSpec × Option Nat → Except String Instr
  | (offset, op, arg) =>
    let line_start := linestarts.lookup offset
    let is_jump_target := labels.contains offset
    match resolveArg co cmpTable mkFlags op arg with
    | Except.ok (argval, argrepr) =>
        Except.ok ⟨offset, op, line_start, arg, argval, argrepr, is_jump_target⟩
    | Except.error e => Except.error e

/-- The `_wordcode` loop over all decoded words, in stream order. -/
def annotateAll (co : CodeObject) (cmpTable mkFlags : List String)
    (labels : List Nat) (linestarts : List (Nat × Int)) :
    List (Nat × OpSpec × Option Nat) → Except String (List Instr)
  | [] => Except.ok []
  | e :: rest =>
      match annotateWord co cmpTable mkFlags labels linestarts e with
      | Except.ok i =>
          match annotateAll co cmpTable mkFlags labels linestarts rest with
          | Except.ok tail => Except.ok (i :: tail)
          | Except.error err => Except.error err
      | Except.error err => Except.error err

/-- Embedding of `DecodeCode._wordcode` (lines 271-311): unpack the word
stream, compute the jump labels from it, decode the line table, and annotate
every word. -/
def wordcode (co : CodeObject) (T : Nat → OpSpec) (cmpTable mkFlags : List String) :
    Except String (List Instr) :=
  match unpack_wordcode T co.co_code with
  | Except.ok unpacked =>
      let labels := findlabels unpacked
      let linestarts := line_no_table co.co_lnotab co.co_firstlineno
      annotateAll co cmpTable mkFlags labels linestarts unpacked
  | Except.error e => Except.error e

/-- Python tuple comparison `python_version >= (3, 6)` on (major, minor)
pairs, lexicographic. -/
def versionAtLeast (v w : Nat × Nat) : Bool :=
  w.1 < v.1 ∨ (v.1 = w.1 ∧ w.2 ≤ v.2)

/-- Embedding of `DecodeCode.unpack_code` (lines 344-348): the version test
selects `_wordcode` on both of its branches. -/
def unpack_code (co : CodeObject) (T : Nat → OpSpec) (cmpTable mkFlags : List String)
    (python_version : Nat × Nat) : Except String (List Instr) :=
  if versionAtLeast python_version (3, 6) then wordcode co T cmpTable mkFlags
  else wordcode co T cmpTable mkFlags

/-- The line-delta byte table of the worked example in the `line_no_table`
docstring (also §8 of the spec). -/
def exampleLnotab : List Nat :=
  [0, 1, 3, 1, 7, 1, 34, 22, 255, 0, 77, 39, 0, 127, 24, 97]

/-! ### Sample opcode table for concrete runs

The opcode table is external data (spec §1, §6); these sample entries give
each capability class one representative so that concrete byte streams can be
decoded in witnesses and counterexamples. -/

/-- A constant-pool referencing opcode. -/
def sampleConstOp : OpSpec :=
  ⟨"LOAD_CONST", true, false, false, true, false, false, false, false, false, false⟩

/-- An absolute-jump opcode. -/
def sampleAbsJumpOp : OpSpec :=
  ⟨"JUMP_ABSOLUTE", true, false, true, false, false, false, false, false, false, false⟩

/-- A relative-jump opcode. -/
def sampleRelJumpOp : OpSpec :=
  ⟨"JUMP_FORWARD", true, true, false, false, false, false, false, false, false, false⟩

/-- The extended-arg marker opcode. -/
def sampleExtendedOp : OpSpec :=
  ⟨"EXTENDED_ARG", true, false, false, false, false, false, false, false, true, false⟩

/-- An opcode that takes no argument. -/
def sampleNopOp : OpSpec :=
  ⟨"NOP", false, false, false, false, false, false, false, false, false, false⟩

/-- A small opcode table binding the sample opcodes to fixed byte values. -/
def sampleTable (b : Nat) : OpSpec :=
  if b = 100 then sampleConstOp
  else if b = 113 then sampleAbsJumpOp
  else if b = 110 then sampleRelJumpOp
  else if b = 144 then sampleExtendedOp
  else sampleNopOp

/-- A code object holding one constant-referencing word whose argument byte is
0, with a one-element constant pool. -/
def exampleZeroArgCO : CodeObject :=
  ⟨[100, 0], some [PyVal.str "X"], Option.none, Option.none, [], [], 1, []⟩

/-- A code object holding one constant-referencing word with argument 1 and a
two-element constant pool. -/
def exampleConstCO : CodeObject :=
  ⟨[100, 1], some [PyVal.str "X", PyVal.str "hi"], Option.none, Option.none, [], [], 1, []⟩

/-- The single instruction decoded from `exampleConstCO`. -/
def exampleConstInstr : Instr :=
  ⟨0, sampleConstOp, some 1, some 1, some (PyVal.str "hi"), pyRepr (PyVal.str "hi"), false⟩

/-! ## Theorems -/

/-- C1: the arbitrary-precision decoder on the worked example.  As written,
`load_long` raises `NameError` on every input because its loop bound calls the
undefined name `abc`; with the single repair acknowledged in spec §9
(`abc` to `abs`), digit count 7 with digits
`[3426, 15327, 31619, 23110, 15594, 17366, 11]` decodes to the NEGATION
`-14273427342342384723428347234` of the claimed value, because the source
computes `sign = 1 if digit_size < 0 else -1`, the inverse of the sign of the
digit count; digit count -7 with the same digits symmetrically decodes to
`14273427342342384723428347234`. -/
theorem load_long_example_digits :
    load_long exampleLongPos = Except.error "NameError: name abc is not defined" ∧
    load_long_abs exampleLongPos = Except.ok (-14273427342342384723428347234, []) ∧
    load_long_abs exampleLongNeg = Except.ok (14273427342342384723428347234, []) :=
  ⟨rfl, rfl, rfl⟩

/-- C6: decoding an arbitrary-precision integer with digit count exactly 0.
As written, `load_long` still raises `NameError` because the loop bound
`range(abc(digit_size))` is evaluated even for a zero count; with the spec §9
repair of the typo, the decode returns the integer 0 and consumes no bytes
beyond the four count bytes (the trailing byte 99 is left in the stream). -/
theorem load_long_zero_count :
    load_long [0, 0, 0, 0, 99] = Except.error "NameError: name abc is not defined" ∧
    load_long_abs [0, 0, 0, 0, 99] = Except.ok (0, [99]) :=
  ⟨rfl, rfl⟩

/-- C2 counterexample: decoding the example line-delta table with first line 1
maps offset 0 to line 2, not to line 1, and the decoded table is not the
mapping claimed in the docstring and spec §8 (whose own delta arithmetic is
inconsistent: the deltas after offset 44 sum to 332 and 356, not 322 and
346). -/
theorem line_no_table_example_refutes :
    (line_no_table exampleLnotab 1).lookup 0 = some 2 ∧
    (2 : Int) ≠ 1 ∧
    line_no_table exampleLnotab 1 ≠ [(0, 1), (3, 2), (10, 3), (44, 25), (366, 64), (390, 298)] :=
  ⟨rfl, by decide, by decide⟩

/-- C2 amended: decoding the example line-delta table
`0 1 3 1 7 1 34 22 255 0 77 39 0 127 24 97` with first line number 1 yields
exactly the pairs `(0, 2), (3, 3), (10, 4), (44, 26), (376, 192), (400, 289)`,
each emitted only when the byte delta is nonzero and the running line differs
from the last emitted line, plus the final pair after the last entry. -/
theorem line_no_table_example :
    line_no_table exampleLnotab 1 =
      [(0, 2), (3, 3), (10, 4), (44, 26), (376, 192), (400, 289)] :=
  rfl

/-- C10: for every first line number, decoding an empty line-delta table
yields exactly the single pair mapping bytecode offset 0 to that first
line. -/
theorem line_no_table_empty (firstlineno : Int) :
    line_no_table [] firstlineno = [(0, firstlineno)] :=
  rfl

/-- C9: for every python version value, `unpack_code` returns exactly the
result of the fixed-width 2-byte wordcode decoding path; the version test
selects the same decoder on both branches, so the output does not depend on
the version comparison. -/
theorem unpack_code_version_independent (co : CodeObject) (T : Nat → OpSpec)
    (cmpTable mkFlags : List String) (python_version : Nat × Nat) :
    unpack_code co T cmpTable mkFlags python_version = wordcode co T cmpTable mkFlags := by
  unfold unpack_code
  split <;> rfl

/-- A little-endian fragment below its shift position combines with the next
byte by bitwise or exactly as by addition. -/
theorem lor_shiftLeft_eq_add (u v k : Nat) (h : u < 2 ^ k) :
    u ||| (v <<< k) = u + v * 2 ^ k := by
  rw [Nat.shiftLeft_eq, Nat.lor_comm, show v * 2 ^ k = 2 ^ k * v by ring,
    ← Nat.mul_add_lt_is_or h v]
  ring

/-- For a byte value at least 128, masking with 0x80 is nonzero. -/
theorem high_bit_and_of_le (d : Nat) (hd : d < 256) (hdd : 128 ≤ d) : d &&& 0x80 ≠ 0 := by
  have h := Nat.and_two_pow d 7
  have h7 : d.testBit 7 = true := by
    rw [Nat.testBit_to_div_mod]
    simp only [decide_eq_true_eq]
    omega
  rw [h7] at h
  norm_num at h
  omega

/-- For a byte value below 128, masking with 0x80 gives zero. -/
theorem high_bit_and_of_lt (d : Nat) (hdd : ¬ 128 ≤ d) : d &&& 0x80 = 0 := by
  have h := Nat.and_two_pow d 7
  have h7 : d.testBit 7 = false := by
    rw [Nat.testBit_to_div_mod]
    simp only [decide_eq_false_iff_not]
    omega
  rw [h7] at h
  norm_num at h
  omega

/-- The 4-byte signed read as a function of the byte values: the little-endian
unsigned value, minus `2 ^ 32` exactly when the high bit of the most
significant byte is set. -/
theorem read_long_tc (a b c d : Nat) (rest : List Nat)
    (ha : a < 256) (hb : b < 256) (hc : c < 256) (hd : d < 256) :
    read_long (a :: b :: c :: d :: rest) =
      Except.ok
        ((if 128 ≤ d
          then ((a + b * 2 ^ 8 + c * 2 ^ 16 + d * 2 ^ 24 : Nat) : Int) - 2 ^ 32
          else ((a + b * 2 ^ 8 + c * 2 ^ 16 + d * 2 ^ 24 : Nat) : Int)), rest) := by
  have e1 : a ||| (b <<< 8) = a + b * 2 ^ 8 :=
    lor_shiftLeft_eq_add a b 8 (by simpa using ha)
  have e2 : (a + b * 2 ^ 8) ||| (c <<< 16) = a + b * 2 ^ 8 + c * 2 ^ 16 :=
    lor_shiftLeft_eq_add _ c 16 (by norm_num; omega)
  have e3 : (a + b * 2 ^ 8 + c * 2 ^ 16) ||| (d <<< 24) =
      a + b * 2 ^ 8 + c * 2 ^ 16 + d * 2 ^ 24 :=
    lor_shiftLeft_eq_add _ d 24 (by norm_num; omega)
  simp only [read_long, e1, e2, e3]
  by_cases hdd : 128 ≤ d
  · have hbit : d &&& 0x80 ≠ 0 := high_bit_and_of_le d hd hdd
    have hpos : 0 < ((a + b * 2 ^ 8 + c * 2 ^ 16 + d * 2 ^ 24 : Nat) : Int) := by
      rw [Int.natCast_pos]
      norm_num
      omega
    rw [if_pos (And.intro hbit hpos), if_pos hdd]
    have h32 : (1 <<< 32 : Int) = 2 ^ 32 := by decide
    rw [h32]
    congr 1
    ring_nf
  · have hbit : d &&& 0x80 = 0 := high_bit_and_of_lt d hdd
    rw [if_neg (fun hcon => hcon.1 hbit), if_neg hdd]

/-- The value-level 8-byte signed read as a function of the byte values: the
little-endian unsigned value, minus `2 ^ 64` exactly when the high bit of the
last byte is set. -/
theorem load_int64_ord_tc (b0 b1 b2 b3 b4 b5 b6 b7 : Nat) (rest : List Nat)
    (h0 : b0 < 256) (h1 : b1 < 256) (h2 : b2 < 256) (h3 : b3 < 256)
    (h4 : b4 < 256) (h5 : b5 < 256) (h6 : b6 < 256) (h7 : b7 < 256) :
    load_int64_ord (b0 :: b1 :: b2 :: b3 :: b4 :: b5 :: b6 :: b7 :: rest) =
      Except.ok
        ((if 128 ≤ b7
          then ((b0 + b1 * 2 ^ 8 + b2 * 2 ^ 16 + b3 * 2 ^ 24 + b4 * 2 ^ 32 +
            b5 * 2 ^ 40 + b6 * 2 ^ 48 + b7 * 2 ^ 56 : Nat) : Int) - 2 ^ 64
          else ((b0 + b1 * 2 ^ 8 + b2 * 2 ^ 16 + b3 * 2 ^ 24 + b4 * 2 ^ 32 +
            b5 * 2 ^ 40 + b6 * 2 ^ 48 + b7 * 2 ^ 56 : Nat) : Int)), rest) := by
  have e1 : b0 ||| (b1 <<< 8) = b0 + b1 * 2 ^ 8 :=
    lor_shiftLeft_eq_add b0 b1 8 (by simpa using h0)
  have e2 : (b0 + b1 * 2 ^ 8) ||| (b2 <<< 16) = b0 + b1 * 2 ^ 8 + b2 * 2 ^ 16 :=
    lor_shiftLeft_eq_add _ b2 16 (by norm_num; omega)
  have e3 : (b0 + b1 * 2 ^ 8 + b2 * 2 ^ 16) ||| (b3 <<< 24) =
      b0 + b1 * 2 ^ 8 + b2 * 2 ^ 16 + b3 * 2 ^ 24 :=
    lor_shiftLeft_eq_add _ b3 24 (by norm_num; omega)
  have e4 : (b0 + b1 * 2 ^ 8 + b2 * 2 ^ 16 + b3 * 2 ^ 24) ||| (b4 <<< 32) =
      b0 + b1 * 2 ^ 8 + b2 * 2 ^ 16 + b3 * 2 ^ 24 + b4 * 2 ^ 32 :=
    lor_shiftLeft_eq_add _ b4 32 (by norm_num; omega)
  have e5 : (b0 + b1 * 2 ^ 8 + b2 * 2 ^ 16 + b3 * 2 ^ 24 + b4 * 2 ^ 32) ||| (b5 <<< 40) =
      b0 + b1 * 2 ^ 8 + b2 * 2 ^ 16 + b3 * 2 ^ 24 + b4 * 2 ^ 32 + b5 * 2 ^ 40 :=
    lor_shiftLeft_eq_add _ b5 40 (by norm_num; omega)
  have e6 : (b0 + b1 * 2 ^ 8 + b2 * 2 ^ 16 + b3 * 2 ^ 24 + b4 * 2 ^ 32 + b5 * 2 ^ 40) |||
      (b6 <<< 48) =
      b0 + b1 * 2 ^ 8 + b2 * 2 ^ 16 + b3 * 2 ^ 24 + b4 * 2 ^ 32 + b5 * 2 ^ 40 + b6 * 2 ^ 48 :=
    lor_shiftLeft_eq_add _ b6 48 (by norm_num; omega)
  have e7 : (b0 + b1 * 2 ^ 8 + b2 * 2 ^ 16 + b3 * 2 ^ 24 + b4 * 2 ^ 32 + b5 * 2 ^ 40 +
      b6 * 2 ^ 48) ||| (b7 <<< 56) =
      b0 + b1 * 2 ^ 8 + b2 * 2 ^ 16 + b3 * 2 ^ 24 + b4 * 2 ^ 32 + b5 * 2 ^ 40 + b6 * 2 ^ 48 +
        b7 * 2 ^ 56 :=
    lor_shiftLeft_eq_add _ b7 56 (by norm_num; omega)
  simp only [load_int64_ord, e1, e2, e3, e4, e5, e6, e7]
  by_cases hdd : 128 ≤ b7
  · have hbit : b7 &&& 0x80 ≠ 0 := high_bit_and_of_le b7 h7 hdd
    have hpos : 0 < ((b0 + b1 * 2 ^ 8 + b2 * 2 ^ 16 + b3 * 2 ^ 24 + b4 * 2 ^ 32 +
        b5 * 2 ^ 40 + b6 * 2 ^ 48 + b7 * 2 ^ 56 : Nat) : Int) := by
      rw [Int.natCast_pos]
      norm_num
      omega
    rw [if_pos (And.intro hbit hpos), if_pos hdd]
    have h64 : (1 <<< 64 : Int) = 2 ^ 64 := by decide
    rw [h64]
    congr 1
    ring_nf
  · have hbit : b7 &&& 0x80 = 0 := high_bit_and_of_lt b7 hdd
    rw [if_neg (fun hcon => hcon.1 hbit), if_neg hdd]

/-- C8: for every 4-byte input the signed 32-bit read returns the
two\x27s-complement interpretation (the little-endian unsigned value, minus
`2 ^ 32` exactly when the high bit of the most significant byte is set); the
64-bit read `load_int64`, as written, raises `TypeError` on every input
because it combines raw length-one byte strings without `ord`; its
value-level repair returns the little-endian two\x27s-complement 64-bit
value. -/
theorem signed_reads_twos_complement
    (a b c d : Nat) (rest s : List Nat)
    (b0 b1 b2 b3 b4 b5 b6 b7 : Nat) (rest2 : List Nat)
    (ha : a < 256) (hb : b < 256) (hc : c < 256) (hd : d < 256)
    (h0 : b0 < 256) (h1 : b1 < 256) (h2 : b2 < 256) (h3 : b3 < 256)
    (h4 : b4 < 256) (h5 : b5 < 256) (h6 : b6 < 256) (h7 : b7 < 256) :
    read_long (a :: b :: c :: d :: rest) =
      Except.ok
        ((if 128 ≤ d
          then ((a + b * 2 ^ 8 + c * 2 ^ 16 + d * 2 ^ 24 : Nat) : Int) - 2 ^ 32
          else ((a + b * 2 ^ 8 + c * 2 ^ 16 + d * 2 ^ 24 : Nat) : Int)), rest) ∧
    load_int64 s = Except.error "TypeError: unsupported operand types for int shift on bytes" ∧
    load_int64_ord (b0 :: b1 :: b2 :: b3 :: b4 :: b5 :: b6 :: b7 :: rest2) =
      Except.ok
        ((if 128 ≤ b7
          then ((b0 + b1 * 2 ^ 8 + b2 * 2 ^ 16 + b3 * 2 ^ 24 + b4 * 2 ^ 32 +
            b5 * 2 ^ 40 + b6 * 2 ^ 48 + b7 * 2 ^ 56 : Nat) : Int) - 2 ^ 64
          else ((b0 + b1 * 2 ^ 8 + b2 * 2 ^ 16 + b3 * 2 ^ 24 + b4 * 2 ^ 32 +
            b5 * 2 ^ 40 + b6 * 2 ^ 48 + b7 * 2 ^ 56 : Nat) : Int)), rest2) :=
  ⟨read_long_tc a b c d rest ha hb hc hd, rfl,
    load_int64_ord_tc b0 b1 b2 b3 b4 b5 b6 b7 rest2 h0 h1 h2 h3 h4 h5 h6 h7⟩

/-- Witness for C8 at concrete bytes: `[1, 0, 0, 128]` reads as
`2147483649 - 2 ^ 32 = -2147483647`; every `load_int64` call raises; the
value-level 64-bit read of `[0, ..., 0, 128]` is `-2 ^ 63`. -/
theorem signed_reads_twos_complement_witness :
    read_long [1, 0, 0, 128] = Except.ok (-2147483647, []) ∧
    load_int64 [1, 2, 3] =
      Except.error "TypeError: unsupported operand types for int shift on bytes" ∧
    load_int64_ord [0, 0, 0, 0, 0, 0, 0, 128] = Except.ok (-9223372036854775808, []) := by
  have h := signed_reads_twos_complement 1 0 0 128 [] [1, 2, 3] 0 0 0 0 0 0 0 128 []
    (by decide) (by decide) (by decide) (by decide) (by decide) (by decide) (by decide)
    (by decide) (by decide) (by decide) (by decide) (by decide)
  norm_num at h
  exact h

/-- C7: the back-reference handler (modelled from the spec, since the source
body of `load_ref` is `pass`) reads a reference-table index and returns the
value already registered at that index in the reference table, and fails with
`DanglingReference` whenever the index is out of range of the registered
entries. -/
theorem load_ref_spec (refs : List PyVal) (s s1 : List Nat) (i : Int)
    (hread : read_long s = Except.ok (i, s1)) :
    (∀ h : 0 ≤ i ∧ i.toNat < refs.length,
      load_ref refs s = Except.ok (refs.get ⟨i.toNat, h.2⟩, s1)) ∧
    (¬ (0 ≤ i ∧ i.toNat < refs.length) →
      load_ref refs s = Except.error "DanglingReference") := by
  constructor
  · intro h
    simp only [load_ref, hread]
    rw [dif_pos h]
  · intro h
    simp only [load_ref, hread]
    rw [dif_neg h]

/-- Witness for C7: index 1 into a two-entry table returns the second entry;
index 1 into an empty table is a dangling reference. -/
theorem load_ref_spec_witness :
    load_ref [PyVal.int 5, PyVal.str "x"] [1, 0, 0, 0] = Except.ok (PyVal.str "x", []) ∧
    load_ref [] [1, 0, 0, 0] = Except.error "DanglingReference" := by
  constructor
  · exact (load_ref_spec [PyVal.int 5, PyVal.str "x"] [1, 0, 0, 0] [] 1 rfl).1
      (And.intro (by decide) (by decide))
  · exact (load_ref_spec [] [1, 0, 0, 0] [] 1 rfl).2 (by decide)

/-- C4: in the instruction word decoder, an extended-arg word carrying operand
1 immediately followed by an argument-taking word with operand 44 produces the
effective argument `(1 <<< 8) ||| 44 = 300` for the second instruction, and
the extended-arg accumulator is reset to 0 for the instruction after that
(its argument is its own operand byte); the accumulator starts at 0 at the
beginning of the stream. -/
theorem unpack_wordcode_extended_arg (T : Nat → OpSpec) (b0 b2 b4 o5 : Nat)
    (h0a : (T b0).hasArg = true) (h0e : (T b0).isExtendedArg = true)
    (h2a : (T b2).hasArg = true) (h2e : (T b2).isExtendedArg = false)
    (h4a : (T b4).hasArg = true) :
    unpack_wordcode T [b0, 1, b2, 44, b4, o5] =
      Except.ok [(0, T b0, some 1), (2, T b2, some 300), (4, T b4, some o5)] := by
  simp only [unpack_wordcode, unpackWordcodeGo, h0a, h0e, h2a, h2e, h4a, if_true,
    Nat.or_zero, (show (44 : Nat) ||| 1 <<< 8 = 300 from by decide)]
  norm_num

/-- Witness for C4 on the sample opcode table. -/
theorem unpack_wordcode_extended_arg_witness :
    unpack_wordcode sampleTable [144, 1, 100, 44, 100, 7] =
      Except.ok [(0, sampleExtendedOp, some 1), (2, sampleConstOp, some 300),
        (4, sampleConstOp, some 7)] := by
  have h := unpack_wordcode_extended_arg sampleTable 144 100 100 7 rfl rfl rfl rfl rfl
  simpa [sampleTable] using h

/-- One step of the `findlabels` loop rewrites to the loop on the tail with a
possibly enlarged accumulator. -/
theorem findlabelsGo_cons (acc : List Nat) (e : Nat × OpSpec × Option Nat)
    (rest : List (Nat × OpSpec × Option Nat)) :
    ∃ acc2 : List Nat, findlabelsGo acc (e :: rest) = findlabelsGo acc2 rest ∧
      ∀ x, x ∈ acc → x ∈ acc2 := by
  obtain ⟨off, op, arg⟩ := e
  cases arg with
  | none => exact ⟨acc, rfl, fun x h => h⟩
  | some a =>
    by_cases h0 : a = 0
    · refine ⟨acc, ?_, fun x h => h⟩
      simp [findlabelsGo, h0]
    · by_cases hr : op.hasJrel = true
      · refine ⟨if off + 2 + a ∈ acc then acc else acc ++ [off + 2 + a], ?_, ?_⟩
        · simp [findlabelsGo, h0, hr]
        · intro x hx
          split <;> simp [hx]
      · by_cases hj : op.hasJabs = true
        · refine ⟨if a ∈ acc then acc else acc ++ [a], ?_, ?_⟩
          · simp [findlabelsGo, h0, hr, hj]
          · intro x hx
            split <;> simp [hx]
        · refine ⟨acc, ?_, fun x h => h⟩
          simp [findlabelsGo, h0, hr, hj]

/-- Labels already collected survive the rest of the `findlabels` loop. -/
theorem findlabelsGo_mono (l : List (Nat × OpSpec × Option Nat)) :
    ∀ acc x, x ∈ acc → x ∈ findlabelsGo acc l := by
  induction l with
  | nil =>
    intro acc x hx
    simpa [findlabelsGo] using hx
  | cons e rest ih =>
    intro acc x hx
    obtain ⟨acc2, heq, hsub⟩ := findlabelsGo_cons acc e rest
    rw [heq]
    exact ih acc2 x (hsub x hx)

/-- Every nonzero-argument jump word contributes its target to the
`findlabels` loop, whatever the starting accumulator. -/
theorem findlabelsGo_target (l : List (Nat × OpSpec × Option Nat)) :
    ∀ (acc : List Nat) (off a : Nat) (op : OpSpec),
      (off, op, some a) ∈ l → a ≠ 0 →
      (op.hasJrel = true → off + 2 + a ∈ findlabelsGo acc l) ∧
      (op.hasJrel = false → op.hasJabs = true → a ∈ findlabelsGo acc l) := by
  induction l with
  | nil =>
    intro acc off a op hmem
    exact absurd hmem (List.not_mem_nil _)
  | cons e rest ih =>
    intro acc off a op hmem h0
    rcases List.mem_cons.mp hmem with heq | hmem2
    · subst heq
      constructor
      · intro hrel
        have hred : findlabelsGo acc ((off, op, some a) :: rest) =
            findlabelsGo (if off + 2 + a ∈ acc then acc else acc ++ [off + 2 + a]) rest := by
          simp [findlabelsGo, h0, hrel]
        rw [hred]
        apply findlabelsGo_mono
        split
        · assumption
        · simp
      · intro hrelf hjabs
        have hred : findlabelsGo acc ((off, op, some a) :: rest) =
            findlabelsGo (if a ∈ acc then acc else acc ++ [a]) rest := by
          simp [findlabelsGo, h0, hrelf, hjabs]
        rw [hred]
        apply findlabelsGo_mono
        split
        · assumption
        · simp
    · obtain ⟨acc2, heq2, _⟩ := findlabelsGo_cons acc e rest
      rw [heq2]
      exact ih acc2 off a op hmem2 h0

/-- C3 amended: for every decoded instruction word whose argument is present
and nonzero (the source tests `if arg:`, so a zero argument is treated like an
absent one), a relative-jump opcode contributes `offset + 2 + arg` to the
computed jump-target set and an absolute-jump opcode contributes `arg` itself,
regardless of the word offset. -/
theorem findlabels_jump_targets (unpacked : List (Nat × OpSpec × Option Nat))
    (off a : Nat) (op : OpSpec) (hmem : (off, op, some a) ∈ unpacked) (ha : a ≠ 0) :
    (op.hasJrel = true → off + 2 + a ∈ findlabels unpacked) ∧
    (op.hasJrel = false → op.hasJabs = true → a ∈ findlabels unpacked) :=
  findlabelsGo_target unpacked [] off a op hmem ha

/-- Witness for C3: a relative jump with argument 10 at offset 20 yields
target `20 + 2 + 10 = 32`, and an absolute jump with argument 32 at offset 6
also yields target 32. -/
theorem findlabels_jump_targets_witness :
    (20 + 2 + 10 ∈ findlabels [(20, sampleRelJumpOp, some 10), (6, sampleAbsJumpOp, some 32)]) ∧
    (32 ∈ findlabels [(20, sampleRelJumpOp, some 10), (6, sampleAbsJumpOp, some 32)]) := by
  constructor
  · exact (findlabels_jump_targets
      [(20, sampleRelJumpOp, some 10), (6, sampleAbsJumpOp, some 32)] 20 10 sampleRelJumpOp
      (by simp) (by decide)).1 rfl
  · exact (findlabels_jump_targets
      [(20, sampleRelJumpOp, some 10), (6, sampleAbsJumpOp, some 32)] 6 32 sampleAbsJumpOp
      (by simp) (by decide)).2 rfl rfl

/-- C3 counterexample: an absolute-jump word with argument 0 contributes no
target at all, so `arg = 0` is not in the jump-target set, contrary to the
claim that absolute-jump arguments land in the set including when the
argument is 0. -/
theorem findlabels_zero_arg_dropped :
    findlabels [(6, sampleAbsJumpOp, some 0)] = [] ∧
    sampleAbsJumpOp.hasJabs = true ∧
    (0 : Nat) ∉ ([] : List Nat) :=
  ⟨rfl, rfl, by decide⟩

/-- Every instruction produced by the `_wordcode` loop comes from annotating
one of the decoded words. -/
theorem annotateAll_mem (co : CodeObject) (cmpT mkF : List String) (labels : List Nat)
    (ls : List (Nat × Int)) (l : List (Nat × OpSpec × Option Nat)) :
    ∀ out, annotateAll co cmpT mkF labels ls l = Except.ok out →
      ∀ inst ∈ out, ∃ e ∈ l, annotateWord co cmpT mkF labels ls e = Except.ok inst := by
  induction l with
  | nil =>
    intro out h inst hinst
    simp only [annotateAll] at h
    injection h with h2
    subst h2
    exact absurd hinst (List.not_mem_nil _)
  | cons e rest ih =>
    intro out h inst hinst
    simp only [annotateAll] at h
    cases hw : annotateWord co cmpT mkF labels ls e with
    | error err => rw [hw] at h; cases h
    | ok i =>
      rw [hw] at h
      cases hr : annotateAll co cmpT mkF labels ls rest with
      | error err => rw [hr] at h; cases h
      | ok tail =>
        rw [hr] at h
        injection h with h2
        subst h2
        rcases List.mem_cons.mp hinst with heq | htail
        · subst heq
          exact ⟨e, List.mem_cons_self e rest, hw⟩
        · obtain ⟨e2, he2, hw2⟩ := ih tail hr inst htail
          exact ⟨e2, List.mem_cons_of_mem e he2, hw2⟩

/-- A successfully annotated word keeps its opcode and raw argument, and its
value and representation are those computed by `resolveArg`. -/
theorem annotateWord_ok (co : CodeObject) (cmpT mkF : List String) (labels : List Nat)
    (ls : List (Nat × Int)) (off : Nat) (op : OpSpec) (argO : Option Nat) (inst : Instr)
    (h : annotateWord co cmpT mkF labels ls (off, op, argO) = Except.ok inst) :
    inst.op = op ∧ inst.arg = argO ∧
    resolveArg co cmpT mkF op argO = Except.ok (inst.argval, inst.argrepr) := by
  simp only [annotateWord] at h
  cases hr : resolveArg co cmpT mkF op argO with
  | error e => rw [hr] at h; cases h
  | ok p =>
    rw [hr] at h
    obtain ⟨v, r⟩ := p
    injection h with h2
    subst h2
    exact ⟨rfl, rfl, rfl⟩

/-- Characterization of `_get_const_info` on success: with an available
constants list the result is the list entry at the index, without one it is
the raw index. -/
theorem get_const_info_char (a : Nat) (consts : Option (List PyVal)) (v : PyVal) (r : String)
    (h : get_const_info a consts = Except.ok (v, r)) :
    (∀ l, consts = some l → l.get? a = some v) ∧
    (consts = Option.none → v = PyVal.int a) := by
  constructor
  · intro l hl
    subst hl
    simp only [get_const_info, getItem] at h
    cases hg : l.get? a with
    | none => rw [hg] at h; cases h
    | some w =>
      rw [hg] at h
      simp only [Except.ok.injEq, Prod.mk.injEq] at h
      rw [h.1]
  · intro hn
    subst hn
    simp only [get_const_info, Except.ok.injEq, Prod.mk.injEq] at h
    exact h.1.symm

/-- Characterization of `_get_name_info` on success: with an available name
list the result is the name at the index, without one it is the raw index. -/
theorem get_name_info_char (a : Nat) (nl : Option (List String)) (v : PyVal) (r : String)
    (h : get_name_info a nl = Except.ok (v, r)) :
    (∀ l, nl = some l → (l.get? a).map PyVal.str = some v) ∧
    (nl = Option.none → v = PyVal.int a) := by
  constructor
  · intro l hl
    subst hl
    simp only [get_name_info, getItem] at h
    cases hg : l.get? a with
    | none => rw [hg] at h; cases h
    | some w =>
      rw [hg] at h
      simp only [Except.ok.injEq, Prod.mk.injEq] at h
      simp [h.1]
  · intro hn
    subst hn
    simp only [get_name_info, Except.ok.injEq, Prod.mk.injEq] at h
    exact h.1.symm

/-- Characterization of `resolveArg` on a truthy argument: the capability
flags are tried in the priority order const, name, local, free, cmp,
make-function, each pool dereferenced with fall-back to the raw index where
the pool can be absent. -/
theorem resolveArg_char (co : CodeObject) (cmpT mkF : List String) (op : OpSpec) (a : Nat)
    (v : Option PyVal) (r : String) (h0 : a ≠ 0)
    (hres : resolveArg co cmpT mkF op (some a) = Except.ok (v, r)) :
    (op.hasConst = true →
      (∀ l, co.co_consts = some l → v = l.get? a) ∧
      (co.co_consts = Option.none → v = some (PyVal.int a))) ∧
    (op.hasConst = false → op.hasName = true →
      (∀ l, co.co_names = some l → v = (l.get? a).map PyVal.str) ∧
      (co.co_names = Option.none → v = some (PyVal.int a))) ∧
    (op.hasConst = false → op.hasName = false → op.hasLocal = true →
      (∀ l, co.co_varnames = some l → v = (l.get? a).map PyVal.str) ∧
      (co.co_varnames = Option.none → v = some (PyVal.int a))) ∧
    (op.hasConst = false → op.hasName = false → op.hasLocal = false → op.hasFree = true →
      v = ((co.co_cellvars ++ co.co_freevars).get? a).map PyVal.str) ∧
    (op.hasConst = false → op.hasName = false → op.hasLocal = false → op.hasFree = false →
      op.hasCmp = true → v = (cmpT.get? a).map PyVal.str) ∧
    (op.hasConst = false → op.hasName = false → op.hasLocal = false → op.hasFree = false →
      op.hasCmp = false → op.isMakeFunction = true →
      v = some (PyVal.int a) ∧ r = makeFunctionRepr mkF a) ∧
    (op.hasConst = false → op.hasName = false → op.hasLocal = false → op.hasFree = false →
      op.hasCmp = false → op.isMakeFunction = false →
      v = some (PyVal.int a) ∧ r = "") := by
  refine ⟨?_, ?_, ?_, ?_, ?_, ?_, ?_⟩
  · intro hc
    simp only [resolveArg, h0, hc, if_false, if_true, Bool.true_eq_false] at hres
    cases hg : get_const_info a co.co_consts with
    | error e => rw [hg] at hres; cases hres
    | ok p =>
      obtain ⟨w, r2⟩ := p
      rw [hg] at hres
      simp only [Except.ok.injEq, Prod.mk.injEq] at hres
      have hch := get_const_info_char a co.co_consts w r2 hg
      constructor
      · intro l hl
        rw [← hres.1, (hch.1 l hl)]
      · intro hn
        rw [← hres.1, hch.2 hn]
  · intro hc hn
    simp only [resolveArg, h0, hc, hn, if_false, if_true, Bool.false_eq_true] at hres
    cases hg : get_name_info a co.co_names with
    | error e => rw [hg] at hres; cases hres
    | ok p =>
      obtain ⟨w, r2⟩ := p
      rw [hg] at hres
      simp only [Except.ok.injEq, Prod.mk.injEq] at hres
      have hch := get_name_info_char a co.co_names w r2 hg
      constructor
      · intro l hl
        rw [← hres.1, (hch.1 l hl)]
      · intro hnn
        rw [← hres.1, hch.2 hnn]
  · intro hc hn hl
    simp only [resolveArg, h0, hc, hn, hl, if_false, if_true, Bool.false_eq_true] at hres
    cases hg : get_name_info a co.co_varnames with
    | error e => rw [hg] at hres; cases hres
    | ok p =>
      obtain ⟨w, r2⟩ := p
      rw [hg] at hres
      simp only [Except.ok.injEq, Prod.mk.injEq] at hres
      have hch := get_name_info_char a co.co_varnames w r2 hg
      constructor
      · intro l hll
        rw [← hres.1, (hch.1 l hll)]
      · intro hnn
        rw [← hres.1, hch.2 hnn]
  · intro hc hn hl hf
    simp only [resolveArg, h0, hc, hn, hl, hf, if_false, if_true, Bool.false_eq_true] at hres
    cases hg : get_name_info a (some (co.co_cellvars ++ co.co_freevars)) with
    | error e => rw [hg] at hres; cases hres
    | ok p =>
      obtain ⟨w, r2⟩ := p
      rw [hg] at hres
      simp only [Except.ok.injEq, Prod.mk.injEq] at hres
      have hch := get_name_info_char a (some (co.co_cellvars ++ co.co_freevars)) w r2 hg
      rw [← hres.1, (hch.1 _ rfl)]
  · intro hc hn hl hf hm
    simp only [resolveArg, h0, hc, hn, hl, hf, hm, if_false, if_true,
      Bool.false_eq_true] at hres
    cases hg : getItem cmpT a with
    | error e => rw [hg] at hres; cases hres
    | ok w =>
      rw [hg] at hres
      simp only [Except.ok.injEq, Prod.mk.injEq] at hres
      simp only [getItem] at hg
      cases hgg : cmpT.get? a with
      | none => rw [hgg] at hg; cases hg
      | some w2 =>
        rw [hgg] at hg
        injection hg with hg2
        subst hg2
        simp [hres.1]
  · intro hc hn hl hf hm hmf
    simp only [resolveArg, h0, hc, hn, hl, hf, hm, hmf, if_false, if_true,
      Bool.false_eq_true] at hres
    simp only [Except.ok.injEq, Prod.mk.injEq] at hres
    exact ⟨hres.1.symm, hres.2.symm⟩
  · intro hc hn hl hf hm hmf
    simp only [resolveArg, h0, hc, hn, hl, hf, hm, hmf, if_false, if_true,
      Bool.false_eq_true] at hres
    simp only [Except.ok.injEq, Prod.mk.injEq] at hres
    exact ⟨hres.1.symm, hres.2.symm⟩

/-- C5 amended: for every decoded instruction whose argument is present and
nonzero (the source tests `if arg:`, so a zero argument is left unresolved),
the capability flags are tried in the priority order const, name, local,
free, cmp, make-function; a constant-pool reference resolves to the element
of the constants sequence at the argument index, with fall-back to the raw
index when the constants sequence is unavailable, and correspondingly for the
other pools. -/
theorem wordcode_argument_resolution
    (co : CodeObject) (T : Nat → OpSpec) (cmpTable mkFlags : List String)
    (out : List Instr) (h : wordcode co T cmpTable mkFlags = Except.ok out)
    (inst : Instr) (hinst : inst ∈ out) (a : Nat) (harg : inst.arg = some a) (h0 : a ≠ 0) :
    (inst.op.hasConst = true →
      (∀ l, co.co_consts = some l → inst.argval = l.get? a) ∧
      (co.co_consts = Option.none → inst.argval = some (PyVal.int a))) ∧
    (inst.op.hasConst = false → inst.op.hasName = true →
      (∀ l, co.co_names = some l → inst.argval = (l.get? a).map PyVal.str) ∧
      (co.co_names = Option.none → inst.argval = some (PyVal.int a))) ∧
    (inst.op.hasConst = false → inst.op.hasName = false → inst.op.hasLocal = true →
      (∀ l, co.co_varnames = some l → inst.argval = (l.get? a).map PyVal.str) ∧
      (co.co_varnames = Option.none → inst.argval = some (PyVal.int a))) ∧
    (inst.op.hasConst = false → inst.op.hasName = false → inst.op.hasLocal = false →
      inst.op.hasFree = true →
      inst.argval = ((co.co_cellvars ++ co.co_freevars).get? a).map PyVal.str) ∧
    (inst.op.hasConst = false → inst.op.hasName = false → inst.op.hasLocal = false →
      inst.op.hasFree = false → inst.op.hasCmp = true →
      inst.argval = (cmpTable.get? a).map PyVal.str) ∧
    (inst.op.hasConst = false → inst.op.hasName = false → inst.op.hasLocal = false →
      inst.op.hasFree = false → inst.op.hasCmp = false → inst.op.isMakeFunction = true →
      inst.argval = some (PyVal.int a) ∧ inst.argrepr = makeFunctionRepr mkFlags a) ∧
    (inst.op.hasConst = false → inst.op.hasName = false → inst.op.hasLocal = false →
      inst.op.hasFree = false → inst.op.hasCmp = false → inst.op.isMakeFunction = false →
      inst.argval = some (PyVal.int a) ∧ inst.argrepr = "") := by
  cases hu : unpack_wordcode T co.co_code with
  | error e =>
    rw [wordcode, hu] at h
    cases h
  | ok unpacked =>
    rw [wordcode, hu] at h
    obtain ⟨e, hmem, hw⟩ := annotateAll_mem co cmpTable mkFlags (findlabels unpacked)
      (line_no_table co.co_lnotab co.co_firstlineno) unpacked out h inst hinst
    obtain ⟨off2, op2, arg2⟩ := e
    obtain ⟨hop, harg2, hres⟩ := annotateWord_ok co cmpTable mkFlags _ _ off2 op2 arg2 inst hw
    have harg3 : arg2 = some a := harg2.symm.trans harg
    subst harg3
    rw [hop]
    exact resolveArg_char co cmpTable mkFlags op2 a inst.argval inst.argrepr h0 hres

/-- Witness for C5: the constant-referencing word with argument 1 in
`exampleConstCO` resolves to entry 1 of that two-element constant pool. -/
theorem wordcode_argument_resolution_witness :
    exampleConstInstr.argval = ([PyVal.str "X", PyVal.str "hi"] : List PyVal).get? 1 :=
  ((wordcode_argument_resolution exampleConstCO sampleTable [] [] [exampleConstInstr] rfl
    exampleConstInstr (List.mem_singleton_self _) 1 rfl (by decide)).1 rfl).1
    [PyVal.str "X", PyVal.str "hi"] rfl

/-- C5 counterexample: a constant-referencing word whose present argument is
0 keeps an absent resolved value even though the constant pool is available
with an entry at index 0, contrary to the claim that a present argument equal
to 0 is dereferenced. -/
theorem wordcode_zero_arg_not_resolved :
    wordcode exampleZeroArgCO sampleTable [] [] =
      Except.ok [⟨0, sampleConstOp, some 1, some 0, Option.none, "", false⟩] ∧
    sampleConstOp.hasConst = true ∧
    (Option.none : Option PyVal) ≠ some (PyVal.str "X") ∧
    exampleZeroArgCO.co_consts = some [PyVal.str "X"] :=
  ⟨rfl, rfl, by decide, rfl⟩

end Pydis
